import Mathlib

set_option maxRecDepth 8000

/-
Verification of the ground-truth encoding pipeline of process_dataset.py.
The core functions process_overlap and compute_gt are embedded below as
executable Lean definitions; the external collaborators from ssdutils and
utils (compute_overlap, box2array, anchors2array, compute_location, the
data-source loader) are taken as function parameters, since only their
interface is visible to the code under verification.  Scores and vector
entries are modelled as rationals, the Python dict used as the match
table as a function from anchor index to an optional score, and the
numpy target vector as a list of rows.
-/

namespace SSD

/-- Image size in pixels (width, height), mirroring utils.Size. -/
structure Size where
  w : Nat
  h : Nat
deriving DecidableEq

/-- Ground-truth bounding box annotation.  Modelled from the spec: a Box has a
class label (name and integer id) and image-relative coordinates (center and
size); the encoder itself reads only labelid, the geometry is consumed by the
external box2array and compute_location collaborators. -/
structure Box where
  label : String
  labelid : Nat
  center : Rat × Rat
  size : Rat × Rat
deriving DecidableEq

/-- Anchor box.  Modelled from the spec: geometric attributes
(center, width, height); consumed only by external collaborators. -/
structure Anchor where
  cx : Rat
  cy : Rat
  w : Rat
  h : Rat
deriving DecidableEq

/-- Scored relation of one anchor to a box: the anchor index and the IoU
score, mirroring the idx/score pairs produced by compute_overlap. -/
structure Score where
  idx : Nat
  score : Rat
deriving DecidableEq

/-- Result of the external Overlap Scorer for one box.  Modelled from the
spec: the best (single highest-scoring) anchor and the good list of anchors
at or above the 0.5 threshold. -/
structure Overlap where
  best : Score
  good : List Score
deriving DecidableEq

/-- Dataset sample.  Modelled from the spec: a filename, the sample's true
image dimensions, and its ground-truth boxes.  compute_gt reads only the
filename and the boxes. -/
structure Sample where
  filename : String
  imgSize : Size
  boxes : List Box
deriving DecidableEq

/-- Target vector of one sample: a list of per-anchor rows of rationals. -/
abbrev Vec := List (List Rat)

/-- Match table of a single conflict-resolution pass, mapping anchor index to
the best score seen so far (the Python dict named matches). -/
abbrev Matches := Nat → Option Rat

/-- Empty match table (the Python literal that re-initializes matches). -/
def emptyMatches : Matches := fun _ => none

/-- Store a score for an anchor index in the match table. -/
def mupdate (m : Matches) (k : Nat) (v : Rat) : Matches :=
  fun i => if i = k then some v else m i

/-- List lookup with a default value, used for both columns and rows. -/
def getAt {α : Type} (d : α) : List α → Nat → α
  | [], _ => d
  | x :: _, 0 => x
  | _ :: t, n + 1 => getAt d t n

/-- Column j of a row (0 outside the row). -/
def getCol (row : List Rat) (j : Nat) : Rat := getAt 0 row j

/-- Row j of a target vector (empty outside the vector). -/
def getRow (v : Vec) (j : Nat) : List Rat := getAt [] v j

/-- Replace row i of the vector by f applied to it, in place. -/
def modifyRow : Vec → Nat → (List Rat → List Rat) → Vec
  | [], _, _ => []
  | r :: t, 0, f => f r :: t
  | r :: t, n + 1, f => r :: modifyRow t n f

/-- Set the first n entries of a row to 0 (numpy vec[idx, 0:n] = 0). -/
def zeroFirst : Nat → List Rat → List Rat
  | _, [] => []
  | 0, l => l
  | n + 1, _ :: t => 0 :: zeroFirst n t

/-- Write the four location offsets into columns nc+1 .. nc+4 of a row
(numpy vec[idx, nc+1:] = compute_location(box, anchor)). -/
def setLoc (nc : Nat) (loc : Rat × Rat × Rat × Rat) (row : List Rat) : List Rat :=
  (((row.set (nc + 1) loc.1).set (nc + 2) loc.2.1).set
      (nc + 3) loc.2.2.1).set (nc + 4) loc.2.2.2

/-- Row written by process_overlap at the matched anchor: the one-hot columns
are zeroed, the box's class column is set to 1, and the offsets are written
(process_dataset.py lines 61-63). -/
def assignRow (box : Box) (loc : Rat × Rat × Rat × Rat) (nc : Nat)
    (row : List Rat) : List Rat :=
  setLoc nc loc ((zeroFirst (nc + 1) row).set box.labelid 1)

/-- Row value that assignRow produces on any row of width nc+5. -/
def targetRow (box : Box) (loc : Rat × Rat × Rat × Rat) (nc : Nat) : List Rat :=
  assignRow box loc nc (List.replicate (nc + 5) 0)

/-- Background row: all zeros with a 1 in the background column nc. -/
def bgRow (nc : Nat) : List Rat := (List.replicate (nc + 5) (0 : Rat)).set nc 1

/-- Initial target vector: an all-zero array, then background column set to 1
in every row and the four offset columns set to 0
(process_dataset.py lines 85 and 100-104). -/
def initVec (vheight nc : Nat) : Vec := List.replicate vheight (bgRow nc)

/-- Placeholder anchor used only to totalize list indexing; every run that
the source admits indexes within bounds. -/
def defaultAnchor : Anchor := ⟨0, 0, 0, 0⟩

/-- process_overlap (process_dataset.py lines 56-63): skip when the anchor
already has a recorded match with a score at least as high, otherwise record
the new score and overwrite the anchor's row.  The Python parameter named
matches is rendered matchTable because matches is a Lean keyword. -/
def process_overlap (compute_location : Box → Anchor → Rat × Rat × Rat × Rat)
    (overlap : Score) (box : Box) (anchor : Anchor) (matchTable : Matches)
    (num_classes : Nat) (vec : Vec) : Matches × Vec :=
  match matchTable overlap.idx with
  | some s =>
    if overlap.score ≤ s then (matchTable, vec)
    else (mupdate matchTable overlap.idx overlap.score,
          modifyRow vec overlap.idx
            (assignRow box (compute_location box anchor) num_classes))
  | none => (mupdate matchTable overlap.idx overlap.score,
          modifyRow vec overlap.idx
            (assignRow box (compute_location box anchor) num_classes))

/-- One conflict-resolution pass: feed a sequence of (overlap, box) attempts
in order through process_overlap against one match table, fetching each
anchor by index as the source loops do. -/
def runPass (cl : Box → Anchor → Rat × Rat × Rat × Rat) (anchors : List Anchor)
    (nc : Nat) : List (Score × Box) → Matches × Vec → Matches × Vec
  | [], st => st
  | (ov, b) :: t, (m, v) =>
      runPass cl anchors nc t
        (process_overlap cl ov b (anchors.getD ov.idx defaultAnchor) m nc v)

/-- Attempts of the first pass (lines 107-111): for every box in order, every
entry of its good list in order. -/
def goodItems : List (Box × Overlap) → List (Score × Box)
  | [] => []
  | (b, o) :: t => o.good.map (fun ov => (ov, b)) ++ goodItems t

/-- Attempts of the second pass (lines 114-117): for every box in order, its
single best entry. -/
def bestItems : List (Box × Overlap) → List (Score × Box)
  | [] => []
  | (b, o) :: t => (o.best, b) :: bestItems t

/-- Per-sample encoding (compute_gt lines 85-117): initialize the vector, run
the good-match pass starting from an empty match table, then run the
best-match pass starting from a fresh empty match table. -/
def encodeSample (cl : Box → Anchor → Rat × Rat × Rat × Rat)
    (anchors : List Anchor) (nc : Nat) (bos : List (Box × Overlap)) : Vec :=
  (runPass cl anchors nc (bestItems bos)
    (emptyMatches,
     (runPass cl anchors nc (goodItems bos)
       (emptyMatches, initVec anchors.length nc)).2)).2

/-- Overlaps dictionary of compute_gt (lines 91-94): every box converted with
the fixed 1000 by 1000 reference canvas and scored against the anchor array
converted with the same canvas, at threshold 0.5. -/
def sampleOverlaps (box2array : Box → Size → List Rat)
    (anchors2array : List Anchor → Size → List (List Rat))
    (compute_overlap : List Rat → List (List Rat) → Rat → Overlap)
    (anchors : List Anchor) (boxes : List Box) : List (Box × Overlap) :=
  boxes.map (fun b =>
    (b, compute_overlap (box2array b ⟨1000, 1000⟩)
          (anchors2array anchors ⟨1000, 1000⟩) (mkRat 1 2)))

/-- Target vector computed by compute_gt's loop body for one sample. -/
def gtVec (b2a : Box → Size → List Rat)
    (a2a : List Anchor → Size → List (List Rat))
    (cov : List Rat → List (List Rat) → Rat → Overlap)
    (cl : Box → Anchor → Rat × Rat × Rat × Rat)
    (anchors : List Anchor) (nc : Nat) (s : Sample) : Vec :=
  encodeSample cl anchors nc (sampleOverlaps b2a a2a cov anchors s.boxes)

/-- Python str.strip(): remove leading and trailing whitespace. -/
def isSpaceChar (c : Char) : Bool :=
  c = ' ' || c = '\t' || c = '\n' || c = '\r'

/-- String with surrounding whitespace removed (name.strip() in the source). -/
def pyStrip (s : String) : String :=
  ⟨((s.data.dropWhile isSpaceChar).reverse.dropWhile isSpaceChar).reverse⟩

/-- os.path.basename: the part of the path after the last slash. -/
def basename (s : String) : String :=
  ⟨s.data.foldl (fun acc c => if c = '/' then [] else acc ++ [c]) []⟩

/-- Output directory of one split (compute_gt line 70). -/
def result_dir (data_dir name : String) : String :=
  data_dir ++ "/ground_truth/" ++ pyStrip name ++ "/"

/-- Output path of one sample's target vector (compute_gt line 122). -/
def gt_fn (data_dir name : String) (s : Sample) : String :=
  result_dir data_dir name ++ basename s.filename ++ ".npy"

/-- Files and manifest produced by compute_gt for one split: the ordered
np.save writes, the manifest pickle path, and the pickled (sample, path)
list. -/
structure GtOutput where
  npyWrites : List (String × Vec)
  manifestPath : String
  manifest : List (Sample × String)
deriving DecidableEq

/-- compute_gt (lines 66-130): loop over the samples in order, computing and
saving each target vector and appending the (sample, path) pair to the
sample list, then store the sample list at the split's manifest path. -/
def compute_gt (b2a : Box → Size → List Rat)
    (a2a : List Anchor → Size → List (List Rat))
    (cov : List Rat → List (List Rat) → Rat → Overlap)
    (cl : Box → Anchor → Rat × Rat × Rat × Rat)
    (data_dir : String) (samples : List Sample) (anchors : List Anchor)
    (nc : Nat) (name : String) : GtOutput :=
  let acc := samples.foldl
    (fun acc s =>
      (acc.1 ++ [(gt_fn data_dir name s, gtVec b2a a2a cov cl anchors nc s)],
       acc.2 ++ [(s, gt_fn data_dir name s)]))
    ([], [])
  ⟨acc.1, data_dir ++ "/" ++ pyStrip name ++ "-samples.pkl", acc.2⟩

/-- Final content of a file path after a sequence of writes: a later np.save
to the same path replaces earlier content. -/
def lastWrite (writes : List (String × Vec)) (p : String) : Option Vec :=
  writes.foldl (fun acc w => if w.1 = p then some w.2 else acc) none

/-- Errors raised by the data-source loading step that main catches at top
level (the except clause of lines 172-174). -/
inductive LoadError where
  | importError : String → LoadError
  | attributeError : String → LoadError
  | runtimeError : String → LoadError
deriving DecidableEq

/-- Loaded data source.  Modelled from the spec: ordered sample sequences per
split and the class count; the color and label-name maps are irrelevant to
the verified claims and omitted. -/
structure DataSource where
  trainSamples : List Sample
  validSamples : List Sample
  testSamples : List Sample
  numClasses : Nat

/-- Command-line arguments of main that influence control flow. -/
structure Args where
  dataDir : String
  annotateFlag : Bool
  computeGtFlag : Bool
  preset : String

/-- Top-level orchestration (main, lines 133-210): when the data source fails
to load, report and return exit code 1 with no further processing; otherwise
run the ground-truth computation for the train and valid splits (when
enabled) and return 0. -/
def main (b2a : Box → Size → List Rat)
    (a2a : List Anchor → Size → List (List Rat))
    (cov : List Rat → List (List Rat) → Rat → Overlap)
    (cl : Box → Anchor → Rat × Rat × Rat × Rat)
    (getAnchors : String → List Anchor) (args : Args)
    (loadResult : Except LoadError DataSource) :
    Nat × Option (GtOutput × GtOutput) :=
  match loadResult with
  | Except.error _ => (1, none)
  | Except.ok source =>
    (0, if args.computeGtFlag then
          some (compute_gt b2a a2a cov cl args.dataDir source.trainSamples
                  (getAnchors args.preset) source.numClasses "train",
                compute_gt b2a a2a cov cl args.dataDir source.validSamples
                  (getAnchors args.preset) source.numClasses "valid")
        else none)

/-- Row has exactly one 1 among its first nc+1 columns (the one-hot segment
including the background column) and 0 at every other one-hot column. -/
def isOneHot (nc : Nat) (row : List Rat) : Prop :=
  ∃ j, j ≤ nc ∧ getCol row j = 1 ∧ ∀ k, k ≤ nc → k ≠ j → getCol row k = 0

theorem getAt_set_self {α : Type} (d a : α) :
    ∀ (l : List α) (i : Nat), i < l.length → getAt d (l.set i a) i = a := by
  intro l
  induction l with
  | nil => intro i h; simp at h
  | cons x t ih =>
    intro i h
    cases i with
    | zero => rfl
    | succ n => exact ih n (by simp at h; omega)

theorem getAt_set_ne {α : Type} (d a : α) :
    ∀ (l : List α) (i j : Nat), i ≠ j → getAt d (l.set i a) j = getAt d l j := by
  intro l
  induction l with
  | nil => intro i j _; rfl
  | cons x t ih =>
    intro i j hne
    cases i with
    | zero =>
      cases j with
      | zero => exact absurd rfl hne
      | succ m => rfl
    | succ n =>
      cases j with
      | zero => rfl
      | succ m => exact ih n m (fun h => hne (by rw [h]))

theorem getAt_ge {α : Type} (d : α) :
    ∀ (l : List α) (j : Nat), l.length ≤ j → getAt d l j = d := by
  intro l
  induction l with
  | nil => intro j _; rfl
  | cons x t ih =>
    intro j h
    cases j with
    | zero => simp at h
    | succ m => exact ih m (by simp at h; omega)

theorem getAt_replicate {α : Type} (d x : α) :
    ∀ (n j : Nat), getAt d (List.replicate n x) j = if j < n then x else d := by
  intro n
  induction n with
  | zero => intro j; simp [List.replicate]; rfl
  | succ m ih =>
    intro j
    cases j with
    | zero => rw [List.replicate_succ]; simp; rfl
    | succ k =>
      rw [List.replicate_succ]
      show getAt d (List.replicate m x) k = _
      rw [ih k]
      by_cases h : k < m
      · rw [if_pos h, if_pos (by omega)]
      · rw [if_neg h, if_neg (by omega)]

theorem getAt_mem {α : Type} (d : α) :
    ∀ (l : List α) (j : Nat), j < l.length → getAt d l j ∈ l := by
  intro l
  induction l with
  | nil => intro j h; simp at h
  | cons x t ih =>
    intro j h
    cases j with
    | zero => exact List.mem_cons_self x t
    | succ k => exact List.mem_cons_of_mem x (ih k (by simp at h; omega))

theorem eq_of_getAt {α : Type} (d : α) :
    ∀ (l1 l2 : List α), l1.length = l2.length →
      (∀ j, getAt d l1 j = getAt d l2 j) → l1 = l2 := by
  intro l1
  induction l1 with
  | nil =>
    intro l2 h _
    cases l2 with
    | nil => rfl
    | cons y u => simp at h
  | cons x t ih =>
    intro l2 hlen hget
    cases l2 with
    | nil => simp at hlen
    | cons y u =>
      have h0 : x = y := hget 0
      have ht : t = u := ih u (by simp at hlen; exact hlen) (fun j => hget (j + 1))
      rw [h0, ht]

theorem length_zeroFirst : ∀ (n : Nat) (l : List Rat),
    (zeroFirst n l).length = l.length := by
  intro n l
  induction l generalizing n with
  | nil => cases n <;> rfl
  | cons x t ih =>
    cases n with
    | zero => rfl
    | succ m => simp [zeroFirst, ih m]

theorem getCol_zeroFirst : ∀ (n : Nat) (l : List Rat) (j : Nat),
    getCol (zeroFirst n l) j = if j < n ∧ j < l.length then 0 else getCol l j := by
  intro n l
  induction l generalizing n with
  | nil =>
    intro j
    cases n <;> simp [zeroFirst]
  | cons x t ih =>
    intro j
    cases n with
    | zero => simp [zeroFirst]
    | succ m =>
      cases j with
      | zero => simp [zeroFirst, getCol, getAt]
      | succ k =>
        show getCol (0 :: zeroFirst m t) (k + 1) = _
        have hk : getCol (0 :: zeroFirst m t) (k + 1) = getCol (zeroFirst m t) k := rfl
        rw [hk, ih m k]
        by_cases h : k < m ∧ k < t.length
        · rw [if_pos h, if_pos (by simp; omega)]
        · rw [if_neg h, if_neg (by simp; omega)]
          rfl

theorem length_modifyRow : ∀ (v : Vec) (i : Nat) (f : List Rat → List Rat),
    (modifyRow v i f).length = v.length := by
  intro v
  induction v with
  | nil => intro i f; rfl
  | cons r t ih =>
    intro i f
    cases i with
    | zero => rfl
    | succ n => simp [modifyRow, ih n]

theorem getRow_modifyRow_self : ∀ (v : Vec) (i : Nat) (f : List Rat → List Rat),
    i < v.length → getRow (modifyRow v i f) i = f (getRow v i) := by
  intro v
  induction v with
  | nil => intro i f h; simp at h
  | cons r t ih =>
    intro i f h
    cases i with
    | zero => rfl
    | succ n => exact ih n f (by simp at h; omega)

theorem getRow_modifyRow_ne : ∀ (v : Vec) (i j : Nat) (f : List Rat → List Rat),
    i ≠ j → getRow (modifyRow v i f) j = getRow v j := by
  intro v
  induction v with
  | nil => intro i j f _; rfl
  | cons r t ih =>
    intro i j f hne
    cases i with
    | zero =>
      cases j with
      | zero => exact absurd rfl hne
      | succ m => rfl
    | succ n =>
      cases j with
      | zero => rfl
      | succ m => exact ih n m f (fun h => hne (by rw [h]))

theorem mem_modifyRow : ∀ (v : Vec) (i : Nat) (f : List Rat → List Rat) (r : List Rat),
    r ∈ modifyRow v i f → r ∈ v ∨ ∃ r0, r0 ∈ v ∧ r = f r0 := by
  intro v
  induction v with
  | nil => intro i f r h; simp [modifyRow] at h
  | cons r0 t ih =>
    intro i f r h
    cases i with
    | zero =>
      rcases List.mem_cons.mp h with h1 | h1
      · exact Or.inr ⟨r0, List.mem_cons_self r0 t, h1⟩
      · exact Or.inl (List.mem_cons_of_mem r0 h1)
    | succ n =>
      rcases List.mem_cons.mp h with h1 | h1
      · exact Or.inl (by rw [h1]; exact List.mem_cons_self r0 t)
      · rcases ih n f r h1 with h2 | ⟨rr, hrr, he⟩
        · exact Or.inl (List.mem_cons_of_mem r0 h2)
        · exact Or.inr ⟨rr, List.mem_cons_of_mem r0 hrr, he⟩

theorem length_setLoc (nc : Nat) (loc : Rat × Rat × Rat × Rat) (row : List Rat) :
    (setLoc nc loc row).length = row.length := by
  simp [setLoc]

theorem length_assignRow (box : Box) (loc : Rat × Rat × Rat × Rat) (nc : Nat)
    (row : List Rat) : (assignRow box loc nc row).length = row.length := by
  simp [assignRow, length_setLoc, length_zeroFirst]

theorem getCol_assignRow (box : Box) (loc : Rat × Rat × Rat × Rat) (nc : Nat)
    (row : List Rat) (h : row.length = nc + 5) (j : Nat) :
    getCol (assignRow box loc nc row) j =
      if j = nc + 1 then loc.1
      else if j = nc + 2 then loc.2.1
      else if j = nc + 3 then loc.2.2.1
      else if j = nc + 4 then loc.2.2.2
      else if j = box.labelid ∧ j < nc + 5 then 1
      else 0 := by
  have h1 : (zeroFirst (nc + 1) row).length = nc + 5 := by
    rw [length_zeroFirst, h]
  have h2 : ((zeroFirst (nc + 1) row).set box.labelid 1).length = nc + 5 := by
    rw [List.length_set, h1]
  unfold assignRow setLoc
  by_cases e4 : j = nc + 4
  · subst e4
    rw [if_neg (by omega), if_neg (by omega), if_neg (by omega), if_pos rfl]
    exact getAt_set_self 0 _ _ _ (by simp only [List.length_set, h2]; omega)
  · show getAt 0 _ j = _
    rw [getAt_set_ne 0 _ _ _ _ (fun he => e4 he.symm)]
    by_cases e3 : j = nc + 3
    · subst e3
      rw [if_neg (by omega), if_neg (by omega), if_pos rfl]
      exact getAt_set_self 0 _ _ _ (by simp only [List.length_set, h2]; omega)
    · rw [getAt_set_ne 0 _ _ _ _ (fun he => e3 he.symm)]
      by_cases e2 : j = nc + 2
      · subst e2
        rw [if_neg (by omega), if_pos rfl]
        exact getAt_set_self 0 _ _ _ (by simp only [List.length_set, h2]; omega)
      · rw [getAt_set_ne 0 _ _ _ _ (fun he => e2 he.symm)]
        by_cases e1 : j = nc + 1
        · subst e1
          rw [if_pos rfl]
          exact getAt_set_self 0 _ _ _ (by simp only [h2]; omega)
        · rw [getAt_set_ne 0 _ _ _ _ (fun he => e1 he.symm)]
          rw [if_neg e1, if_neg e2, if_neg e3, if_neg e4]
          by_cases el : j = box.labelid
          · by_cases hj5 : j < nc + 5
            · rw [if_pos ⟨el, hj5⟩]
              subst el
              exact getAt_set_self 0 _ _ _ (by rw [h1]; omega)
            · rw [if_neg (fun hc => hj5 hc.2)]
              exact getAt_ge 0 _ _ (by rw [h2]; omega)
          · rw [if_neg (fun hc => el hc.1)]
            rw [getAt_set_ne 0 _ _ _ _ (fun he => el he.symm)]
            show getCol (zeroFirst (nc + 1) row) j = 0
            rw [getCol_zeroFirst]
            by_cases hsmall : j < nc + 1
            · rw [if_pos ⟨hsmall, by omega⟩]
            · by_cases hbig : j < nc + 5
              · exact absurd rfl (by omega : j ≠ j)
              · rw [if_neg (fun hc => hsmall hc.1)]
                show getAt 0 row j = 0
                exact getAt_ge 0 _ _ (by omega)

theorem targetRow_length (box : Box) (loc : Rat × Rat × Rat × Rat) (nc : Nat) :
    (targetRow box loc nc).length = nc + 5 := by
  simp [targetRow, length_assignRow]

theorem getCol_targetRow (box : Box) (loc : Rat × Rat × Rat × Rat) (nc : Nat)
    (j : Nat) :
    getCol (targetRow box loc nc) j =
      if j = nc + 1 then loc.1
      else if j = nc + 2 then loc.2.1
      else if j = nc + 3 then loc.2.2.1
      else if j = nc + 4 then loc.2.2.2
      else if j = box.labelid ∧ j < nc + 5 then 1
      else 0 :=
  getCol_assignRow box loc nc _ (by simp) j

theorem assignRow_eq_target (box : Box) (loc : Rat × Rat × Rat × Rat) (nc : Nat)
    (row : List Rat) (h : row.length = nc + 5) :
    assignRow box loc nc row = targetRow box loc nc := by
  apply eq_of_getAt 0
  · rw [length_assignRow, h, targetRow_length]
  · intro j
    show getCol (assignRow box loc nc row) j = getCol (targetRow box loc nc) j
    rw [getCol_assignRow box loc nc row h j, getCol_targetRow]

theorem mupdate_self {m : Matches} {k j : Nat} (v : Rat) (h : j = k) :
    mupdate m k v j = some v := by
  simp [mupdate, h]

theorem mupdate_ne {m : Matches} {k j : Nat} (v : Rat) (h : j ≠ k) :
    mupdate m k v j = m j := by
  simp [mupdate, h]

theorem bgRow_length (nc : Nat) : (bgRow nc).length = nc + 5 := by
  simp [bgRow]

theorem getCol_bgRow (nc k : Nat) :
    getCol (bgRow nc) k = if k = nc then 1 else 0 := by
  unfold bgRow getCol
  by_cases h : k = nc
  · subst h
    rw [if_pos rfl]
    exact getAt_set_self 0 _ _ _ (by simp only [List.length_replicate]; omega)
  · rw [if_neg h, getAt_set_ne 0 _ _ _ _ (fun he => h he.symm), getAt_replicate]
    by_cases hk : k < nc + 5
    · rw [if_pos hk]
    · rw [if_neg hk]

theorem isOneHot_bgRow (nc : Nat) : isOneHot nc (bgRow nc) := by
  refine ⟨nc, Nat.le_refl nc, ?_, ?_⟩
  · rw [getCol_bgRow, if_pos rfl]
  · intro k _ hne
    rw [getCol_bgRow, if_neg hne]

theorem length_initVec (vh nc : Nat) : (initVec vh nc).length = vh := by
  simp [initVec]

theorem getRow_initVec {vh nc j : Nat} (h : j < vh) :
    getRow (initVec vh nc) j = bgRow nc := by
  unfold initVec getRow
  rw [getAt_replicate, if_pos h]

theorem mem_initVec {vh nc : Nat} {r : List Rat} (h : r ∈ initVec vh nc) :
    r = bgRow nc :=
  List.eq_of_mem_replicate h

theorem isOneHot_assignRow {box : Box} {nc : Nat} {row : List Rat}
    (loc : Rat × Rat × Rat × Rat) (hlab : box.labelid ≤ nc)
    (h : row.length = nc + 5) : isOneHot nc (assignRow box loc nc row) := by
  refine ⟨box.labelid, hlab, ?_, ?_⟩
  · rw [getCol_assignRow box loc nc row h, if_neg (by omega), if_neg (by omega),
      if_neg (by omega), if_neg (by omega), if_pos ⟨rfl, by omega⟩]
  · intro k hk hne
    rw [getCol_assignRow box loc nc row h, if_neg (by omega), if_neg (by omega),
      if_neg (by omega), if_neg (by omega), if_neg (fun hc => hne hc.1)]

theorem po_skip {cl : Box → Anchor → Rat × Rat × Rat × Rat} {ov : Score}
    {b : Box} {a : Anchor} {m : Matches} {nc : Nat} {v : Vec} {s : Rat}
    (h : m ov.idx = some s) (hs : ov.score ≤ s) :
    process_overlap cl ov b a m nc v = (m, v) := by
  unfold process_overlap
  rw [h]
  show (if ov.score ≤ s then (m, v)
        else (mupdate m ov.idx ov.score,
              modifyRow v ov.idx (assignRow b (cl b a) nc))) = (m, v)
  rw [if_pos hs]

theorem po_write {cl : Box → Anchor → Rat × Rat × Rat × Rat} {ov : Score}
    {b : Box} {a : Anchor} {m : Matches} {nc : Nat} {v : Vec}
    (h : ∀ s, m ov.idx = some s → s < ov.score) :
    process_overlap cl ov b a m nc v =
      (mupdate m ov.idx ov.score,
       modifyRow v ov.idx (assignRow b (cl b a) nc)) := by
  unfold process_overlap
  cases hm : m ov.idx with
  | none => rfl
  | some s =>
    show (if ov.score ≤ s then (m, v)
          else (mupdate m ov.idx ov.score,
                modifyRow v ov.idx (assignRow b (cl b a) nc))) = _
    rw [if_neg (not_le.mpr (h s hm))]

theorem po_fst_ne {cl : Box → Anchor → Rat × Rat × Rat × Rat} {ov : Score}
    {b : Box} {a : Anchor} {m : Matches} {nc : Nat} {v : Vec} {j : Nat}
    (hj : j ≠ ov.idx) : (process_overlap cl ov b a m nc v).1 j = m j := by
  unfold process_overlap
  cases hm : m ov.idx with
  | none => exact mupdate_ne ov.score hj
  | some s =>
    show (if ov.score ≤ s then (m, v)
          else (mupdate m ov.idx ov.score,
                modifyRow v ov.idx (assignRow b (cl b a) nc))).1 j = m j
    by_cases hle : ov.score ≤ s
    · rw [if_pos hle]
    · rw [if_neg hle]
      exact mupdate_ne ov.score hj

theorem po_row_ne {cl : Box → Anchor → Rat × Rat × Rat × Rat} {ov : Score}
    {b : Box} {a : Anchor} {m : Matches} {nc : Nat} {v : Vec} {j : Nat}
    (hj : j ≠ ov.idx) :
    getRow (process_overlap cl ov b a m nc v).2 j = getRow v j := by
  unfold process_overlap
  cases hm : m ov.idx with
  | none => exact getRow_modifyRow_ne v ov.idx j _ (fun h => hj h.symm)
  | some s =>
    show getRow (if ov.score ≤ s then (m, v)
          else (mupdate m ov.idx ov.score,
                modifyRow v ov.idx (assignRow b (cl b a) nc))).2 j = getRow v j
    by_cases hle : ov.score ≤ s
    · rw [if_pos hle]
    · rw [if_neg hle]
      exact getRow_modifyRow_ne v ov.idx j _ (fun h => hj h.symm)

theorem po_length {cl : Box → Anchor → Rat × Rat × Rat × Rat} {ov : Score}
    {b : Box} {a : Anchor} {m : Matches} {nc : Nat} {v : Vec} :
    ((process_overlap cl ov b a m nc v).2).length = v.length := by
  unfold process_overlap
  cases hm : m ov.idx with
  | none => exact length_modifyRow v ov.idx _
  | some s =>
    show ((if ov.score ≤ s then (m, v)
          else (mupdate m ov.idx ov.score,
                modifyRow v ov.idx (assignRow b (cl b a) nc))).2).length = v.length
    by_cases hle : ov.score ≤ s
    · rw [if_pos hle]
    · rw [if_neg hle]
      exact length_modifyRow v ov.idx _

theorem po_mem_rows {cl : Box → Anchor → Rat × Rat × Rat × Rat} {ov : Score}
    {b : Box} {a : Anchor} {m : Matches} {nc : Nat} {v : Vec} {r : List Rat}
    (h : r ∈ (process_overlap cl ov b a m nc v).2) :
    r ∈ v ∨ ∃ r0, r0 ∈ v ∧ r = assignRow b (cl b a) nc r0 := by
  unfold process_overlap at h
  cases hm : m ov.idx with
  | none =>
    rw [hm] at h
    exact mem_modifyRow v ov.idx _ r h
  | some s =>
    rw [hm] at h
    have h2 : r ∈ (if ov.score ≤ s then (m, v)
          else (mupdate m ov.idx ov.score,
                modifyRow v ov.idx (assignRow b (cl b a) nc))).2 := h
    by_cases hle : ov.score ≤ s
    · rw [if_pos hle] at h2
      exact Or.inl h2
    · rw [if_neg hle] at h2
      exact mem_modifyRow v ov.idx _ r h2

theorem runPass_cons (cl : Box → Anchor → Rat × Rat × Rat × Rat)
    (anchors : List Anchor) (nc : Nat) (p : Score × Box)
    (t : List (Score × Box)) (st : Matches × Vec) :
    runPass cl anchors nc (p :: t) st =
      runPass cl anchors nc t
        (process_overlap cl p.1 p.2 (anchors.getD p.1.idx defaultAnchor)
          st.1 nc st.2) := by
  obtain ⟨ov, b⟩ := p
  obtain ⟨m, v⟩ := st
  rfl

theorem runPass_append (cl : Box → Anchor → Rat × Rat × Rat × Rat)
    (anchors : List Anchor) (nc : Nat) :
    ∀ (l1 l2 : List (Score × Box)) (st : Matches × Vec),
      runPass cl anchors nc (l1 ++ l2) st =
        runPass cl anchors nc l2 (runPass cl anchors nc l1 st) := by
  intro l1
  induction l1 with
  | nil => intro l2 st; rfl
  | cons p t ih =>
    intro l2 st
    rw [List.cons_append, runPass_cons, runPass_cons, ih]

theorem runPass_frame {cl : Box → Anchor → Rat × Rat × Rat × Rat}
    {anchors : List Anchor} {nc j : Nat} :
    ∀ (items : List (Score × Box)) (st : Matches × Vec),
      (∀ p ∈ items, p.1.idx ≠ j) →
      (runPass cl anchors nc items st).1 j = st.1 j ∧
      getRow (runPass cl anchors nc items st).2 j = getRow st.2 j := by
  intro items
  induction items with
  | nil => intro st _; exact ⟨rfl, rfl⟩
  | cons p t ih =>
    intro st hall
    rw [runPass_cons]
    have hp := hall p (List.mem_cons_self p t)
    have ht := ih (process_overlap cl p.1 p.2
        (anchors.getD p.1.idx defaultAnchor) st.1 nc st.2)
      (fun q hq => hall q (List.mem_cons_of_mem p hq))
    exact ⟨by rw [ht.1, po_fst_ne (Ne.symm hp)],
           by rw [ht.2, po_row_ne (Ne.symm hp)]⟩

theorem runPass_keep {cl : Box → Anchor → Rat × Rat × Rat × Rat}
    {anchors : List Anchor} {nc j : Nat} {s : Rat} :
    ∀ (items : List (Score × Box)) (st : Matches × Vec),
      st.1 j = some s →
      (∀ p ∈ items, p.1.idx = j → p.1.score ≤ s) →
      (runPass cl anchors nc items st).1 j = some s ∧
      getRow (runPass cl anchors nc items st).2 j = getRow st.2 j := by
  intro items
  induction items with
  | nil => intro st hm _; exact ⟨hm, rfl⟩
  | cons p t ih =>
    intro st hm hall
    rw [runPass_cons]
    by_cases he : p.1.idx = j
    · have hsc : p.1.score ≤ s := hall p (List.mem_cons_self p t) he
      have hskip : process_overlap cl p.1 p.2
            (anchors.getD p.1.idx defaultAnchor) st.1 nc st.2 = (st.1, st.2) :=
        po_skip (by rw [he]; exact hm) hsc
      rw [hskip]
      exact ih (st.1, st.2) hm (fun q hq => hall q (List.mem_cons_of_mem p hq))
    · have h1 := @po_fst_ne cl p.1 p.2
        (anchors.getD p.1.idx defaultAnchor) st.1 nc st.2 j
        (fun hh => he hh.symm)
      have h2 := @po_row_ne cl p.1 p.2
        (anchors.getD p.1.idx defaultAnchor) st.1 nc st.2 j
        (fun hh => he hh.symm)
      have ht := ih (process_overlap cl p.1 p.2
          (anchors.getD p.1.idx defaultAnchor) st.1 nc st.2)
        (by rw [h1]; exact hm)
        (fun q hq => hall q (List.mem_cons_of_mem p hq))
      exact ⟨ht.1, by rw [ht.2, h2]⟩

theorem runPass_low {cl : Box → Anchor → Rat × Rat × Rat × Rat}
    {anchors : List Anchor} {nc j : Nat} {S : Rat} :
    ∀ (items : List (Score × Box)) (st : Matches × Vec),
      (∀ s0, st.1 j = some s0 → s0 < S) →
      (∀ p ∈ items, p.1.idx = j → p.1.score < S) →
      ∀ s1, (runPass cl anchors nc items st).1 j = some s1 → s1 < S := by
  intro items
  induction items with
  | nil => intro st hm _ s1 h; exact hm s1 h
  | cons p t ih =>
    intro st hm hall
    rw [runPass_cons]
    apply ih
    · intro s0 h0
      by_cases he : p.1.idx = j
      · cases hl : st.1 p.1.idx with
        | none =>
          rw [po_write (fun s hs => by rw [hl] at hs; cases hs)] at h0
          have h1 : mupdate st.1 p.1.idx p.1.score j = some s0 := h0
          rw [mupdate_self p.1.score he.symm] at h1
          injection h1 with hh
          rw [← hh]
          exact hall p (List.mem_cons_self p t) he
        | some s2 =>
          by_cases hle : p.1.score ≤ s2
          · rw [po_skip hl hle] at h0
            exact hm s0 h0
          · rw [po_write (fun s hs => by
                rw [hl] at hs
                injection hs with hh
                rw [← hh]
                exact not_le.mp hle)] at h0
            have h1 : mupdate st.1 p.1.idx p.1.score j = some s0 := h0
            rw [mupdate_self p.1.score he.symm] at h1
            injection h1 with hh
            rw [← hh]
            exact hall p (List.mem_cons_self p t) he
      · rw [po_fst_ne (fun hh => he hh.symm)] at h0
        exact hm s0 h0
    · exact fun q hq => hall q (List.mem_cons_of_mem p hq)

theorem runPass_length {cl : Box → Anchor → Rat × Rat × Rat × Rat}
    {anchors : List Anchor} {nc : Nat} :
    ∀ (items : List (Score × Box)) (st : Matches × Vec),
      ((runPass cl anchors nc items st).2).length = st.2.length := by
  intro items
  induction items with
  | nil => intro st; rfl
  | cons p t ih =>
    intro st
    rw [runPass_cons, ih, po_length]

theorem runPass_rows {cl : Box → Anchor → Rat × Rat × Rat × Rat}
    {anchors : List Anchor} {nc : Nat} {L : Nat} :
    ∀ (items : List (Score × Box)) (st : Matches × Vec),
      (∀ r ∈ st.2, r.length = L) →
      ∀ r ∈ (runPass cl anchors nc items st).2, r.length = L := by
  intro items
  induction items with
  | nil => intro st h; exact h
  | cons p t ih =>
    intro st h
    rw [runPass_cons]
    apply ih
    intro r hr
    rcases po_mem_rows hr with h1 | ⟨r0, hr0, he⟩
    · exact h r h1
    · rw [he, length_assignRow]
      exact h r0 hr0

theorem runPass_oneHot {cl : Box → Anchor → Rat × Rat × Rat × Rat}
    {anchors : List Anchor} {nc : Nat} :
    ∀ (items : List (Score × Box)) (st : Matches × Vec),
      (∀ p ∈ items, p.2.labelid ≤ nc) →
      (∀ r ∈ st.2, r.length = nc + 5) →
      (∀ r ∈ st.2, isOneHot nc r) →
      ∀ r ∈ (runPass cl anchors nc items st).2, isOneHot nc r := by
  intro items
  induction items with
  | nil => intro st _ _ h; exact h
  | cons p t ih =>
    intro st hlab hlen hone
    rw [runPass_cons]
    apply ih
    · exact fun q hq => hlab q (List.mem_cons_of_mem p hq)
    · intro r hr
      rcases po_mem_rows hr with h1 | ⟨r0, hr0, he⟩
      · exact hlen r h1
      · rw [he, length_assignRow]
        exact hlen r0 hr0
    · intro r hr
      rcases po_mem_rows hr with h1 | ⟨r0, hr0, he⟩
      · exact hone r h1
      · rw [he]
        exact isOneHot_assignRow _ (hlab p (List.mem_cons_self p t)) (hlen r0 hr0)

theorem runPass_winner {cl : Box → Anchor → Rat × Rat × Rat × Rat}
    {anchors : List Anchor} {nc : Nat} {pre post : List (Score × Box)}
    {ov : Score} {b : Box} {j : Nat} {m : Matches} {v : Vec}
    (hidx : ov.idx = j) (hj : j < v.length)
    (hrows : ∀ r ∈ v, r.length = nc + 5)
    (hm : ∀ s0, m j = some s0 → s0 < ov.score)
    (hpre : ∀ p ∈ pre, p.1.idx = j → p.1.score < ov.score)
    (hpost : ∀ p ∈ post, p.1.idx = j → p.1.score ≤ ov.score) :
    getRow (runPass cl anchors nc (pre ++ (ov, b) :: post) (m, v)).2 j
      = targetRow b (cl b (anchors.getD j defaultAnchor)) nc := by
  subst hidx
  rw [runPass_append]
  have hlow : ∀ s0, (runPass cl anchors nc pre (m, v)).1 ov.idx = some s0 →
      s0 < ov.score :=
    runPass_low pre (m, v) hm hpre
  have hlen : ((runPass cl anchors nc pre (m, v)).2).length = v.length :=
    runPass_length pre (m, v)
  have hrows1 : ∀ r ∈ (runPass cl anchors nc pre (m, v)).2, r.length = nc + 5 :=
    runPass_rows pre (m, v) hrows
  rw [runPass_cons]
  have hwrite : process_overlap cl ov b (anchors.getD ov.idx defaultAnchor)
        (runPass cl anchors nc pre (m, v)).1 nc
        (runPass cl anchors nc pre (m, v)).2
      = (mupdate (runPass cl anchors nc pre (m, v)).1 ov.idx ov.score,
         modifyRow (runPass cl anchors nc pre (m, v)).2 ov.idx
           (assignRow b (cl b (anchors.getD ov.idx defaultAnchor)) nc)) :=
    po_write (fun s hs => hlow s hs)
  rw [hwrite]
  have hkeep := @runPass_keep cl anchors nc ov.idx ov.score post
    (mupdate (runPass cl anchors nc pre (m, v)).1 ov.idx ov.score,
     modifyRow (runPass cl anchors nc pre (m, v)).2 ov.idx
       (assignRow b (cl b (anchors.getD ov.idx defaultAnchor)) nc))
    (mupdate_self ov.score rfl) hpost
  rw [hkeep.2]
  show getRow (modifyRow _ _ _) ov.idx = _
  rw [getRow_modifyRow_self _ _ _ (by rw [hlen]; exact hj)]
  apply assignRow_eq_target
  apply hrows1
  exact getAt_mem [] _ _ (by rw [hlen]; exact hj)

theorem bestItems_append : ∀ (l1 l2 : List (Box × Overlap)),
    bestItems (l1 ++ l2) = bestItems l1 ++ bestItems l2 := by
  intro l1 l2
  induction l1 with
  | nil => rfl
  | cons q t ih =>
    obtain ⟨b, o⟩ := q
    simp [bestItems, ih]

theorem mem_bestItems : ∀ (bos : List (Box × Overlap)) (p : Score × Box),
    p ∈ bestItems bos → ∃ q, q ∈ bos ∧ p = (q.2.best, q.1) := by
  intro bos
  induction bos with
  | nil => intro p h; simp [bestItems] at h
  | cons q t ih =>
    obtain ⟨b, o⟩ := q
    intro p h
    rcases List.mem_cons.mp h with h1 | h1
    · exact ⟨(b, o), List.mem_cons_self _ _, h1⟩
    · obtain ⟨q2, hq2, he⟩ := ih p h1
      exact ⟨q2, List.mem_cons_of_mem _ hq2, he⟩

theorem mem_goodItems : ∀ (bos : List (Box × Overlap)) (p : Score × Box),
    p ∈ goodItems bos → ∃ q, q ∈ bos ∧ p.1 ∈ q.2.good ∧ p.2 = q.1 := by
  intro bos
  induction bos with
  | nil => intro p h; simp [goodItems] at h
  | cons q t ih =>
    obtain ⟨b, o⟩ := q
    intro p h
    rcases List.mem_append.mp h with h1 | h1
    · obtain ⟨ov, hov, he⟩ := List.mem_map.mp h1
      exact ⟨(b, o), List.mem_cons_self _ _, by rw [← he]; exact hov,
             by rw [← he]⟩
    · obtain ⟨q2, hq2, he⟩ := ih p h1
      exact ⟨q2, List.mem_cons_of_mem _ hq2, he⟩

theorem initVec_rows_len {vh nc : Nat} :
    ∀ r ∈ initVec vh nc, r.length = nc + 5 := by
  intro r hr
  rw [mem_initVec hr]
  exact bgRow_length nc

theorem pass1_rows_len {cl : Box → Anchor → Rat × Rat × Rat × Rat}
    {anchors : List Anchor} {nc : Nat} {items : List (Score × Box)} :
    ∀ r ∈ (runPass cl anchors nc items
        (emptyMatches, initVec anchors.length nc)).2, r.length = nc + 5 :=
  runPass_rows items _ initVec_rows_len

theorem pass1_len {cl : Box → Anchor → Rat × Rat × Rat × Rat}
    {anchors : List Anchor} {nc : Nat} {items : List (Score × Box)} :
    ((runPass cl anchors nc items
        (emptyMatches, initVec anchors.length nc)).2).length = anchors.length := by
  rw [runPass_length]
  exact length_initVec anchors.length nc

theorem encode_winner {cl : Box → Anchor → Rat × Rat × Rat × Rat}
    {anchors : List Anchor} {nc : Nat} {pre post : List (Box × Overlap)}
    {b : Box} {o : Overlap} {j : Nat}
    (hidx : o.best.idx = j) (hj : j < anchors.length)
    (hpre : ∀ q ∈ pre, q.2.best.idx = j → q.2.best.score < o.best.score)
    (hpost : ∀ q ∈ post, q.2.best.idx = j → q.2.best.score ≤ o.best.score) :
    getRow (encodeSample cl anchors nc (pre ++ (b, o) :: post)) j
      = targetRow b (cl b (anchors.getD j defaultAnchor)) nc := by
  unfold encodeSample
  rw [bestItems_append]
  show getRow (runPass cl anchors nc
      (bestItems pre ++ (o.best, b) :: bestItems post) _).2 j = _
  apply runPass_winner hidx
  · rw [pass1_len]; exact hj
  · exact pass1_rows_len
  · intro s0 h0; exact absurd h0 (by simp [emptyMatches])
  · intro p hp hpj
    obtain ⟨q, hq, he⟩ := mem_bestItems pre p hp
    rw [he] at hpj ⊢
    exact hpre q hq hpj
  · intro p hp hpj
    obtain ⟨q, hq, he⟩ := mem_bestItems post p hp
    rw [he] at hpj ⊢
    exact hpost q hq hpj

theorem compute_gt_foldl (b2a : Box → Size → List Rat)
    (a2a : List Anchor → Size → List (List Rat))
    (cov : List Rat → List (List Rat) → Rat → Overlap)
    (cl : Box → Anchor → Rat × Rat × Rat × Rat)
    (dd : String) (anchors : List Anchor) (nc : Nat) (name : String) :
    ∀ (samples : List Sample) (w : List (String × Vec))
      (mf : List (Sample × String)),
      samples.foldl
        (fun acc s =>
          (acc.1 ++ [(gt_fn dd name s, gtVec b2a a2a cov cl anchors nc s)],
           acc.2 ++ [(s, gt_fn dd name s)])) (w, mf)
        = (w ++ samples.map
             (fun s => (gt_fn dd name s, gtVec b2a a2a cov cl anchors nc s)),
           mf ++ samples.map (fun s => (s, gt_fn dd name s))) := by
  intro samples
  induction samples with
  | nil => intro w mf; simp
  | cons s t ih =>
    intro w mf
    rw [List.foldl_cons, ih]
    simp

theorem compute_gt_eq (b2a : Box → Size → List Rat)
    (a2a : List Anchor → Size → List (List Rat))
    (cov : List Rat → List (List Rat) → Rat → Overlap)
    (cl : Box → Anchor → Rat × Rat × Rat × Rat)
    (dd : String) (samples : List Sample) (anchors : List Anchor)
    (nc : Nat) (name : String) :
    compute_gt b2a a2a cov cl dd samples anchors nc name =
      ⟨samples.map
         (fun s => (gt_fn dd name s, gtVec b2a a2a cov cl anchors nc s)),
       dd ++ "/" ++ pyStrip name ++ "-samples.pkl",
       samples.map (fun s => (s, gt_fn dd name s))⟩ := by
  unfold compute_gt
  rw [compute_gt_foldl]
  simp

theorem string_eq_of_data {a b : String} (h : a.data = b.data) : a = b := by
  cases a
  cases b
  exact congrArg String.mk h

theorem basename_eq_of_gt_fn {dd name : String} {s1 s2 : Sample}
    (he : gt_fn dd name s1 = gt_fn dd name s2) :
    basename s1.filename = basename s2.filename := by
  apply string_eq_of_data
  have hd := congrArg String.data he
  unfold gt_fn at hd
  rw [String.data_append, String.data_append, String.data_append,
      String.data_append] at hd
  exact List.append_cancel_left (List.append_cancel_right hd)

theorem gt_fn_inj {dd name : String} {s1 s2 : Sample}
    (h : basename s1.filename ≠ basename s2.filename) :
    gt_fn dd name s1 ≠ gt_fn dd name s2 :=
  fun he => h (basename_eq_of_gt_fn he)

theorem lastWrite_append (l1 l2 : List (String × Vec)) (p : String) :
    lastWrite (l1 ++ l2) p =
      List.foldl (fun acc w => if w.1 = p then some w.2 else acc)
        (lastWrite l1 p) l2 := by
  unfold lastWrite
  rw [List.foldl_append]

theorem foldl_write_skip {p : String} :
    ∀ (l : List (String × Vec)) (a : Option Vec),
      (∀ w ∈ l, w.1 ≠ p) →
      List.foldl (fun acc w => if w.1 = p then some w.2 else acc) a l = a := by
  intro l
  induction l with
  | nil => intro a _; rfl
  | cons w t ih =>
    intro a hall
    rw [List.foldl_cons, if_neg (hall w (List.mem_cons_self w t))]
    exact ih a (fun q hq => hall q (List.mem_cons_of_mem w hq))

theorem getElem?_append_cons {α : Type} :
    ∀ (l1 : List α) (x : α) (l2 : List α), (l1 ++ x :: l2)[l1.length]? = some x := by
  intro l1
  induction l1 with
  | nil => intro x l2; simp
  | cons y t ih =>
    intro x l2
    rw [List.cons_append]
    show (y :: (t ++ x :: l2))[t.length + 1]? = some x
    rw [List.getElem?_cons_succ]
    exact ih x l2

theorem map_getElem?_append_cons {α β : Type} (f : α → β) (l1 : List α)
    (x : α) (l2 : List α) :
    (List.map f (l1 ++ x :: l2))[l1.length]? = some (f x) := by
  rw [List.map_append, List.map_cons]
  have h := getElem?_append_cons (List.map f l1) (f x) (List.map f l2)
  rw [List.length_map] at h
  exact h

/-- C1: the good-match pass and the best-match pass of compute_gt use
independent conflict state.  First conjunct: the encoder literally runs the
best-match pass from a fresh empty match table on the vector left by the
good-match pass.  Second conjunct: when no other box's best entry points at
anchor j, the final row j is exactly the best-assigned row of the box whose
best entry is j — with no hypothesis at all about the good lists or about
the scores the first pass recorded at j, so a best assignment resolves only
against other pass-2 best assignments and overwrites any pass-1 good
assignment there, even one with a strictly higher recorded score. -/
theorem two_pass_fresh_table_independence :
    (∀ (cl : Box → Anchor → Rat × Rat × Rat × Rat) (anchors : List Anchor)
       (nc : Nat) (bos : List (Box × Overlap)),
       encodeSample cl anchors nc bos =
         (runPass cl anchors nc (bestItems bos)
           (emptyMatches,
            (runPass cl anchors nc (goodItems bos)
              (emptyMatches, initVec anchors.length nc)).2)).2) ∧
    (∀ (cl : Box → Anchor → Rat × Rat × Rat × Rat) (anchors : List Anchor)
       (nc : Nat) (pre post : List (Box × Overlap)) (b : Box) (o : Overlap)
       (j : Nat),
       o.best.idx = j → j < anchors.length →
       (∀ q ∈ pre, q.2.best.idx ≠ j) →
       (∀ q ∈ post, q.2.best.idx ≠ j) →
       getRow (encodeSample cl anchors nc (pre ++ (b, o) :: post)) j
         = targetRow b (cl b (anchors.getD j defaultAnchor)) nc) := by
  constructor
  · intro cl anchors nc bos
    rfl
  · intro cl anchors nc pre post b o j hidx hj hpre hpost
    exact encode_winner hidx hj (fun q hq hqj => absurd hqj (hpre q hq))
      (fun q hq hqj => absurd hqj (hpost q hq))

/-- Witness for C1 at a concrete input: the good-match pass records score
9/10 for anchor 0 (claimed by box cat), yet the best-match pass, with its
fresh table, lets box dog's best entry of score 3/10 < 9/10 take row 0. -/
theorem two_pass_fresh_table_independence_witness :
    (runPass (fun _ _ => ((0 : Rat), (0 : Rat), (0 : Rat), (0 : Rat)))
        [⟨0, 0, 0, 0⟩, ⟨1, 1, 1, 1⟩] 1
        (goodItems
          [(⟨"cat", 0, (0, 0), (1, 1)⟩,
            ⟨⟨1, mkRat 19 20⟩, [⟨0, mkRat 9 10⟩, ⟨1, mkRat 19 20⟩]⟩),
           (⟨"dog", 1, (0, 0), (1, 1)⟩, ⟨⟨0, mkRat 3 10⟩, []⟩)])
        (emptyMatches, initVec 2 1)).1 0 = some (mkRat 9 10) ∧
    mkRat 3 10 < mkRat 9 10 ∧
    getRow (encodeSample (fun _ _ => ((0 : Rat), (0 : Rat), (0 : Rat), (0 : Rat)))
        [⟨0, 0, 0, 0⟩, ⟨1, 1, 1, 1⟩] 1
        [(⟨"cat", 0, (0, 0), (1, 1)⟩,
          ⟨⟨1, mkRat 19 20⟩, [⟨0, mkRat 9 10⟩, ⟨1, mkRat 19 20⟩]⟩),
         (⟨"dog", 1, (0, 0), (1, 1)⟩, ⟨⟨0, mkRat 3 10⟩, []⟩)]) 0
      = targetRow ⟨"dog", 1, (0, 0), (1, 1)⟩
          ((0 : Rat), (0 : Rat), (0 : Rat), (0 : Rat)) 1 ∧
    targetRow ⟨"dog", 1, (0, 0), (1, 1)⟩
        ((0 : Rat), (0 : Rat), (0 : Rat), (0 : Rat)) 1
      ≠ targetRow ⟨"cat", 0, (0, 0), (1, 1)⟩
          ((0 : Rat), (0 : Rat), (0 : Rat), (0 : Rat)) 1 := by
  refine ⟨by decide, by decide, ?_, by decide⟩
  exact two_pass_fresh_table_independence.2
    (fun _ _ => ((0 : Rat), (0 : Rat), (0 : Rat), (0 : Rat)))
    [⟨0, 0, 0, 0⟩, ⟨1, 1, 1, 1⟩] 1
    [(⟨"cat", 0, (0, 0), (1, 1)⟩,
      ⟨⟨1, mkRat 19 20⟩, [⟨0, mkRat 9 10⟩, ⟨1, mkRat 19 20⟩]⟩)] []
    ⟨"dog", 1, (0, 0), (1, 1)⟩ ⟨⟨0, mkRat 3 10⟩, []⟩ 0
    rfl (by decide) (by decide) (by decide)

/-- C2: process_overlap is monotonic and first-claim-wins on ties.  First
conjunct: an attempt whose score is at most the recorded score for that
anchor leaves the match table and the vector unchanged.  Second conjunct: a
strictly greater score records the new score and overwrites exactly the
anchor's row.  Third conjunct: two boxes whose good lists both point at
anchor j leave j labeled by the higher-scoring box, and by the earlier box
on equal scores. -/
theorem process_overlap_monotonic :
    (∀ (cl : Box → Anchor → Rat × Rat × Rat × Rat) (ov : Score) (b : Box)
       (a : Anchor) (m : Matches) (nc : Nat) (v : Vec) (s : Rat),
       m ov.idx = some s → ov.score ≤ s →
       process_overlap cl ov b a m nc v = (m, v)) ∧
    (∀ (cl : Box → Anchor → Rat × Rat × Rat × Rat) (ov : Score) (b : Box)
       (a : Anchor) (m : Matches) (nc : Nat) (v : Vec) (s : Rat),
       m ov.idx = some s → s < ov.score →
       process_overlap cl ov b a m nc v =
         (mupdate m ov.idx ov.score,
          modifyRow v ov.idx (assignRow b (cl b a) nc))) ∧
    (∀ (cl : Box → Anchor → Rat × Rat × Rat × Rat) (anchors : List Anchor)
       (nc : Nat) (b1 b2 : Box) (o1 o2 : Overlap) (ov1 ov2 : Score) (j : Nat),
       o1.good = [ov1] → o2.good = [ov2] → ov1.idx = j → ov2.idx = j →
       j < anchors.length → o1.best.idx ≠ j → o2.best.idx ≠ j →
       getRow (encodeSample cl anchors nc [(b1, o1), (b2, o2)]) j =
         if ov2.score ≤ ov1.score
         then targetRow b1 (cl b1 (anchors.getD j defaultAnchor)) nc
         else targetRow b2 (cl b2 (anchors.getD j defaultAnchor)) nc) := by
  refine ⟨?_, ?_, ?_⟩
  · intro cl ov b a m nc v s h hs
    exact po_skip h hs
  · intro cl ov b a m nc v s h hs
    exact po_write (fun s2 hs2 => by
      rw [h] at hs2
      injection hs2 with hh
      rw [← hh]
      exact hs)
  · intro cl anchors nc b1 b2 o1 o2 ov1 ov2 j h1 h2 hi1 hi2 hj hb1 hb2
    unfold encodeSample
    have hframe := @runPass_frame cl anchors nc j
      (bestItems [(b1, o1), (b2, o2)])
      (emptyMatches,
       (runPass cl anchors nc (goodItems [(b1, o1), (b2, o2)])
         (emptyMatches, initVec anchors.length nc)).2)
      (by
        intro p hp
        rcases mem_bestItems _ p hp with ⟨q, hq, he⟩
        rcases List.mem_cons.mp hq with hq1 | hq1
        · rw [he, hq1]; exact hb1
        · rcases List.mem_cons.mp hq1 with hq2 | hq2
          · rw [he, hq2]; exact hb2
          · exact absurd hq2 (List.not_mem_nil q))
    rw [hframe.2]
    have hg : goodItems [(b1, o1), (b2, o2)] = [(ov1, b1), (ov2, b2)] := by
      simp [goodItems, h1, h2]
    rw [hg]
    by_cases hc : ov2.score ≤ ov1.score
    · rw [if_pos hc]
      have hwin := @runPass_winner cl anchors nc [] [(ov2, b2)] ov1 b1 j
        emptyMatches (initVec anchors.length nc) hi1
        (by rw [length_initVec]; exact hj) initVec_rows_len
        (fun s0 h0 => absurd h0 (by simp [emptyMatches]))
        (fun p hp => absurd hp (List.not_mem_nil p))
        (by
          intro p hp _
          rcases List.mem_cons.mp hp with hp1 | hp1
          · rw [hp1]; exact hc
          · exact absurd hp1 (List.not_mem_nil p))
      exact hwin
    · rw [if_neg hc]
      have hwin := @runPass_winner cl anchors nc [(ov1, b1)] [] ov2 b2 j
        emptyMatches (initVec anchors.length nc) hi2
        (by rw [length_initVec]; exact hj) initVec_rows_len
        (fun s0 h0 => absurd h0 (by simp [emptyMatches]))
        (by
          intro p hp _
          rcases List.mem_cons.mp hp with hp1 | hp1
          · rw [hp1]; exact not_le.mp hc
          · exact absurd hp1 (List.not_mem_nil p))
        (fun p hp => absurd hp (List.not_mem_nil p))
      exact hwin

/-- Witness for C2 at concrete inputs: a recorded score 1/2 blocks an equal
attempt (row and table unchanged), a 3/4 attempt overwrites it, and two boxes
with tied good scores 3/5 for anchor 0 leave the earlier box's label there. -/
theorem process_overlap_monotonic_witness :
    process_overlap (fun _ _ => ((0 : Rat), (0 : Rat), (0 : Rat), (0 : Rat)))
        ⟨0, mkRat 1 2⟩ ⟨"cat", 0, (0, 0), (1, 1)⟩ defaultAnchor
        (mupdate emptyMatches 0 (mkRat 1 2)) 1 (initVec 1 1)
      = (mupdate emptyMatches 0 (mkRat 1 2), initVec 1 1) ∧
    process_overlap (fun _ _ => ((0 : Rat), (0 : Rat), (0 : Rat), (0 : Rat)))
        ⟨0, mkRat 3 4⟩ ⟨"cat", 0, (0, 0), (1, 1)⟩ defaultAnchor
        (mupdate emptyMatches 0 (mkRat 1 2)) 1 (initVec 1 1)
      = (mupdate (mupdate emptyMatches 0 (mkRat 1 2)) 0 (mkRat 3 4),
         modifyRow (initVec 1 1) 0
           (assignRow ⟨"cat", 0, (0, 0), (1, 1)⟩
             ((0 : Rat), (0 : Rat), (0 : Rat), (0 : Rat)) 1)) ∧
    getRow (encodeSample (fun _ _ => ((0 : Rat), (0 : Rat), (0 : Rat), (0 : Rat)))
        [⟨0, 0, 0, 0⟩, ⟨1, 1, 1, 1⟩] 1
        [(⟨"cat", 0, (0, 0), (1, 1)⟩, ⟨⟨1, mkRat 7 10⟩, [⟨0, mkRat 3 5⟩]⟩),
         (⟨"dog", 1, (0, 0), (1, 1)⟩, ⟨⟨1, mkRat 7 10⟩, [⟨0, mkRat 3 5⟩]⟩)]) 0
      = targetRow ⟨"cat", 0, (0, 0), (1, 1)⟩
          ((0 : Rat), (0 : Rat), (0 : Rat), (0 : Rat)) 1 := by
  refine ⟨?_, ?_, ?_⟩
  · exact process_overlap_monotonic.1 _ ⟨0, mkRat 1 2⟩ _ defaultAnchor _ 1 _
      (mkRat 1 2) (by decide) (by decide)
  · exact process_overlap_monotonic.2.1 _ ⟨0, mkRat 3 4⟩ _ defaultAnchor _ 1 _
      (mkRat 1 2) (by decide) (by decide)
  · have h := process_overlap_monotonic.2.2
      (fun _ _ => ((0 : Rat), (0 : Rat), (0 : Rat), (0 : Rat)))
      [⟨0, 0, 0, 0⟩, ⟨1, 1, 1, 1⟩] 1
      ⟨"cat", 0, (0, 0), (1, 1)⟩ ⟨"dog", 1, (0, 0), (1, 1)⟩
      ⟨⟨1, mkRat 7 10⟩, [⟨0, mkRat 3 5⟩]⟩ ⟨⟨1, mkRat 7 10⟩, [⟨0, mkRat 3 5⟩]⟩
      ⟨0, mkRat 3 5⟩ ⟨0, mkRat 3 5⟩ 0
      rfl rfl rfl rfl (by decide) (by decide) (by decide)
    rw [h, if_pos (by decide)]

/-- C3: each row of the target vector is exactly one-hot on its first
num_classes+1 columns at every point of the encoding, provided every box's
labelid is at most num_classes: after initialization (first conjunct), after
any single process_overlap call on a vector of one-hot rows of width
num_classes+5 (second conjunct), and on the final encoded vector (third
conjunct). -/
theorem one_hot_invariant :
    (∀ (vh nc : Nat), ∀ r ∈ initVec vh nc, isOneHot nc r) ∧
    (∀ (cl : Box → Anchor → Rat × Rat × Rat × Rat) (ov : Score) (b : Box)
       (a : Anchor) (m : Matches) (nc : Nat) (v : Vec),
       b.labelid ≤ nc → (∀ r ∈ v, r.length = nc + 5) →
       (∀ r ∈ v, isOneHot nc r) →
       ∀ r ∈ (process_overlap cl ov b a m nc v).2, isOneHot nc r) ∧
    (∀ (cl : Box → Anchor → Rat × Rat × Rat × Rat) (anchors : List Anchor)
       (nc : Nat) (bos : List (Box × Overlap)),
       (∀ q ∈ bos, q.1.labelid ≤ nc) →
       ∀ r ∈ encodeSample cl anchors nc bos, isOneHot nc r) := by
  refine ⟨?_, ?_, ?_⟩
  · intro vh nc r hr
    rw [mem_initVec hr]
    exact isOneHot_bgRow nc
  · intro cl ov b a m nc v hlab hlen hone r hr
    rcases po_mem_rows hr with h1 | ⟨r0, hr0, he⟩
    · exact hone r h1
    · rw [he]
      exact isOneHot_assignRow _ hlab (hlen r0 hr0)
  · intro cl anchors nc bos hlab
    unfold encodeSample
    apply runPass_oneHot
    · intro p hp
      obtain ⟨q, hq, he⟩ := mem_bestItems bos p hp
      rw [he]
      exact hlab q hq
    · exact pass1_rows_len
    · apply runPass_oneHot
      · intro p hp
        obtain ⟨q, hq, _, he⟩ := mem_goodItems bos p hp
        rw [he]
        exact hlab q hq
      · exact initVec_rows_len
      · intro r hr
        rw [mem_initVec hr]
        exact isOneHot_bgRow nc

/-- Witness for C3 at a concrete input: the only row of the encoded vector
for one box of class 0 among classes {0} plus background is one-hot. -/
theorem one_hot_invariant_witness :
    isOneHot 1
      (getRow (encodeSample (fun _ _ => ((0 : Rat), (0 : Rat), (0 : Rat), (0 : Rat)))
        [⟨0, 0, 0, 0⟩] 1
        [(⟨"cat", 0, (0, 0), (1, 1)⟩, ⟨⟨0, mkRat 7 10⟩, [⟨0, mkRat 7 10⟩]⟩)]) 0) :=
  one_hot_invariant.2.2 (fun _ _ => ((0 : Rat), (0 : Rat), (0 : Rat), (0 : Rat)))
    [⟨0, 0, 0, 0⟩] 1
    [(⟨"cat", 0, (0, 0), (1, 1)⟩, ⟨⟨0, mkRat 7 10⟩, [⟨0, mkRat 7 10⟩]⟩)]
    (by decide) _ (by decide)

/-- C4 as stated is false on the code: in this two-box sample both boxes have
anchor 0 as their best anchor (scores 2/5 and 9/20) and neither reaches the
good threshold, so box cat of class 0 loses its best anchor to box dog and
no row of the final one-row vector carries class 0 — box cat gets no anchor
assignment at all. -/
theorem every_box_assignment_counterexample :
    (encodeSample (fun _ _ => ((0 : Rat), (0 : Rat), (0 : Rat), (0 : Rat)))
        [⟨0, 0, 0, 0⟩] 1
        [(⟨"cat", 0, (0, 0), (1, 1)⟩, ⟨⟨0, mkRat 2 5⟩, []⟩),
         (⟨"dog", 1, (0, 0), (1, 1)⟩, ⟨⟨0, mkRat 9 20⟩, []⟩)]).length = 1 ∧
    getCol (getRow (encodeSample (fun _ _ => ((0 : Rat), (0 : Rat), (0 : Rat), (0 : Rat)))
        [⟨0, 0, 0, 0⟩] 1
        [(⟨"cat", 0, (0, 0), (1, 1)⟩, ⟨⟨0, mkRat 2 5⟩, []⟩),
         (⟨"dog", 1, (0, 0), (1, 1)⟩, ⟨⟨0, mkRat 9 20⟩, []⟩)]) 0) 0 = 0 := by
  decide

/-- C4 amended: a box is guaranteed its best anchor's row — and hence at
least one anchor assignment — unless that anchor is claimed by a competitor,
namely when every earlier box's best entry at the same anchor has a strictly
lower score and every later box's best entry there has a score at most the
box's own; under those conditions the best anchor's row is the box's
assigned row and carries its class column set to 1. -/
theorem best_anchor_assignment_amended :
    ∀ (cl : Box → Anchor → Rat × Rat × Rat × Rat) (anchors : List Anchor)
      (nc : Nat) (pre post : List (Box × Overlap)) (b : Box) (o : Overlap)
      (j : Nat),
      o.best.idx = j → j < anchors.length → b.labelid ≤ nc →
      (∀ q ∈ pre, q.2.best.idx = j → q.2.best.score < o.best.score) →
      (∀ q ∈ post, q.2.best.idx = j → q.2.best.score ≤ o.best.score) →
      getRow (encodeSample cl anchors nc (pre ++ (b, o) :: post)) j
        = targetRow b (cl b (anchors.getD j defaultAnchor)) nc ∧
      getCol (getRow (encodeSample cl anchors nc (pre ++ (b, o) :: post)) j)
        b.labelid = 1 := by
  intro cl anchors nc pre post b o j hidx hj hlab hpre hpost
  have h := @encode_winner cl anchors nc pre post b o j hidx hj hpre hpost
  refine ⟨h, ?_⟩
  rw [h, getCol_targetRow, if_neg (by omega), if_neg (by omega),
    if_neg (by omega), if_neg (by omega), if_pos ⟨rfl, by omega⟩]

/-- Witness for C4's amended statement: box cat's best anchor 0 (score 2/5)
beats an earlier competitor whose best score there is 1/5, so row 0 is cat's
assigned row with class column 0 set to 1. -/
theorem best_anchor_assignment_amended_witness :
    getRow (encodeSample (fun _ _ => ((0 : Rat), (0 : Rat), (0 : Rat), (0 : Rat)))
        [⟨0, 0, 0, 0⟩] 1
        [(⟨"dog", 1, (0, 0), (1, 1)⟩, ⟨⟨0, mkRat 1 5⟩, []⟩),
         (⟨"cat", 0, (0, 0), (1, 1)⟩, ⟨⟨0, mkRat 2 5⟩, []⟩)]) 0
      = targetRow ⟨"cat", 0, (0, 0), (1, 1)⟩
          ((0 : Rat), (0 : Rat), (0 : Rat), (0 : Rat)) 1 ∧
    getCol (getRow (encodeSample (fun _ _ => ((0 : Rat), (0 : Rat), (0 : Rat), (0 : Rat)))
        [⟨0, 0, 0, 0⟩] 1
        [(⟨"dog", 1, (0, 0), (1, 1)⟩, ⟨⟨0, mkRat 1 5⟩, []⟩),
         (⟨"cat", 0, (0, 0), (1, 1)⟩, ⟨⟨0, mkRat 2 5⟩, []⟩)]) 0) 0 = 1 :=
  best_anchor_assignment_amended
    (fun _ _ => ((0 : Rat), (0 : Rat), (0 : Rat), (0 : Rat)))
    [⟨0, 0, 0, 0⟩] 1
    [(⟨"dog", 1, (0, 0), (1, 1)⟩, ⟨⟨0, mkRat 1 5⟩, []⟩)] []
    ⟨"cat", 0, (0, 0), (1, 1)⟩ ⟨⟨0, mkRat 2 5⟩, []⟩ 0
    rfl (by decide) (by decide) (by decide) (by decide)

/-- C5: the target vector starts all-background with zero offsets (first two
conjuncts: every initial row is the background row, whose background column
is 1 and every other column 0), process_overlap writes only the matched
anchor's row (third conjunct), and therefore every anchor index appearing in
no box's good list and being no box's best index keeps the background row in
the final vector (fourth conjunct). -/
theorem background_frame_property :
    (∀ (vh nc j : Nat), j < vh → getRow (initVec vh nc) j = bgRow nc) ∧
    (∀ (nc k : Nat), getCol (bgRow nc) k = if k = nc then 1 else 0) ∧
    (∀ (cl : Box → Anchor → Rat × Rat × Rat × Rat) (ov : Score) (b : Box)
       (a : Anchor) (m : Matches) (nc : Nat) (v : Vec) (j : Nat),
       j ≠ ov.idx →
       getRow (process_overlap cl ov b a m nc v).2 j = getRow v j) ∧
    (∀ (cl : Box → Anchor → Rat × Rat × Rat × Rat) (anchors : List Anchor)
       (nc : Nat) (bos : List (Box × Overlap)) (j : Nat),
       j < anchors.length →
       (∀ q ∈ bos, q.2.best.idx ≠ j ∧ ∀ ovg ∈ q.2.good, ovg.idx ≠ j) →
       getRow (encodeSample cl anchors nc bos) j = bgRow nc) := by
  refine ⟨?_, ?_, ?_, ?_⟩
  · intro vh nc j hj
    exact getRow_initVec hj
  · intro nc k
    exact getCol_bgRow nc k
  · intro cl ov b a m nc v j hj
    exact po_row_ne hj
  · intro cl anchors nc bos j hj hall
    unfold encodeSample
    have hbest := @runPass_frame cl anchors nc j (bestItems bos)
      (emptyMatches,
       (runPass cl anchors nc (goodItems bos)
         (emptyMatches, initVec anchors.length nc)).2)
      (by
        intro p hp
        obtain ⟨q, hq, he⟩ := mem_bestItems bos p hp
        rw [he]
        exact (hall q hq).1)
    rw [hbest.2]
    have hgood := @runPass_frame cl anchors nc j (goodItems bos)
      (emptyMatches, initVec anchors.length nc)
      (by
        intro p hp
        obtain ⟨q, hq, hg, _⟩ := mem_goodItems bos p hp
        exact (hall q hq).2 p.1 hg)
    rw [hgood.2]
    exact getRow_initVec hj

/-- Witness for C5 at a concrete input: anchor 0 appears in no good list and
is no box's best index, so its row stays the background row. -/
theorem background_frame_property_witness :
    getRow (encodeSample (fun _ _ => ((0 : Rat), (0 : Rat), (0 : Rat), (0 : Rat)))
        [⟨0, 0, 0, 0⟩, ⟨1, 1, 1, 1⟩] 1
        [(⟨"cat", 0, (0, 0), (1, 1)⟩, ⟨⟨1, mkRat 4 5⟩, [⟨1, mkRat 4 5⟩]⟩)]) 0
      = bgRow 1 :=
  background_frame_property.2.2.2
    (fun _ _ => ((0 : Rat), (0 : Rat), (0 : Rat), (0 : Rat)))
    [⟨0, 0, 0, 0⟩, ⟨1, 1, 1, 1⟩] 1
    [(⟨"cat", 0, (0, 0), (1, 1)⟩, ⟨⟨1, mkRat 4 5⟩, [⟨1, mkRat 4 5⟩]⟩)] 0
    (by decide) (by decide)

theorem lastWrite_spec {p : String} :
    ∀ (l1 l2 : List (String × Vec)) (w : String × Vec),
      w.1 = p → (∀ q ∈ l2, q.1 ≠ p) →
      lastWrite (l1 ++ w :: l2) p = some w.2 := by
  intro l1 l2 w hw hl2
  rw [lastWrite_append, List.foldl_cons, if_pos hw]
  exact foldl_write_skip l2 _ hl2

/-- C6: for a split, compute_gt performs exactly one np.save per input
sample, at path result_dir plus the basename of the sample's filename plus
the .npy suffix, in input order, and the pickled manifest holds exactly one
(sample, path) entry per sample, in the same order, paired with the exact
path the sample's vector was saved to; the manifest itself is stored at
data_dir/<stripped name>-samples.pkl. -/
theorem manifest_one_entry_per_sample :
    ∀ (b2a : Box → Size → List Rat)
      (a2a : List Anchor → Size → List (List Rat))
      (cov : List Rat → List (List Rat) → Rat → Overlap)
      (cl : Box → Anchor → Rat × Rat × Rat × Rat)
      (dd : String) (samples : List Sample) (anchors : List Anchor)
      (nc : Nat) (name : String),
      (compute_gt b2a a2a cov cl dd samples anchors nc name).npyWrites
        = samples.map (fun s =>
            (gt_fn dd name s, gtVec b2a a2a cov cl anchors nc s)) ∧
      (compute_gt b2a a2a cov cl dd samples anchors nc name).manifest
        = samples.map (fun s => (s, gt_fn dd name s)) ∧
      ((compute_gt b2a a2a cov cl dd samples anchors nc name).manifest).length
        = samples.length ∧
      (compute_gt b2a a2a cov cl dd samples anchors nc name).manifestPath
        = dd ++ "/" ++ pyStrip name ++ "-samples.pkl" := by
  intro b2a a2a cov cl dd samples anchors nc name
  rw [compute_gt_eq]
  exact ⟨rfl, rfl, by simp, rfl⟩

/-- C7: main returns exit code 0 when the run succeeds and 1 whenever the
data-source loading step fails, in which case it produces no ground-truth
outputs at all. -/
theorem main_exit_codes :
    (∀ (b2a : Box → Size → List Rat)
       (a2a : List Anchor → Size → List (List Rat))
       (cov : List Rat → List (List Rat) → Rat → Overlap)
       (cl : Box → Anchor → Rat × Rat × Rat × Rat)
       (getAnchors : String → List Anchor) (args : Args) (e : LoadError),
       main b2a a2a cov cl getAnchors args (Except.error e) = (1, none)) ∧
    (∀ (b2a : Box → Size → List Rat)
       (a2a : List Anchor → Size → List (List Rat))
       (cov : List Rat → List (List Rat) → Rat → Overlap)
       (cl : Box → Anchor → Rat × Rat × Rat × Rat)
       (getAnchors : String → List Anchor) (args : Args) (src : DataSource),
       (main b2a a2a cov cl getAnchors args (Except.ok src)).1 = 0) :=
  ⟨fun _ _ _ _ _ _ _ => rfl, fun _ _ _ _ _ _ _ => rfl⟩

/-- C8: compute_gt scores every box against the anchor array using the fixed
1000 by 1000 reference canvas (first conjunct, by definition of the per
sample loop body), so the per-sample target vector depends on the sample
only through its box list: two samples with equal boxes but different
filenames or true image sizes get identical vectors (second conjunct). -/
theorem fixed_canvas_overlaps :
    (∀ (b2a : Box → Size → List Rat)
       (a2a : List Anchor → Size → List (List Rat))
       (cov : List Rat → List (List Rat) → Rat → Overlap)
       (cl : Box → Anchor → Rat × Rat × Rat × Rat)
       (anchors : List Anchor) (nc : Nat) (s : Sample),
       gtVec b2a a2a cov cl anchors nc s =
         encodeSample cl anchors nc
           (s.boxes.map (fun b =>
             (b, cov (b2a b ⟨1000, 1000⟩) (a2a anchors ⟨1000, 1000⟩)
                   (mkRat 1 2))))) ∧
    (∀ (b2a : Box → Size → List Rat)
       (a2a : List Anchor → Size → List (List Rat))
       (cov : List Rat → List (List Rat) → Rat → Overlap)
       (cl : Box → Anchor → Rat × Rat × Rat × Rat)
       (anchors : List Anchor) (nc : Nat) (s1 s2 : Sample),
       s1.boxes = s2.boxes →
       gtVec b2a a2a cov cl anchors nc s1 = gtVec b2a a2a cov cl anchors nc s2) := by
  constructor
  · intro b2a a2a cov cl anchors nc s
    rfl
  · intro b2a a2a cov cl anchors nc s1 s2 h
    unfold gtVec sampleOverlaps
    rw [h]

/-- Witness for C8: two samples with the same single box but different
filenames and true image sizes receive identical target vectors. -/
theorem fixed_canvas_overlaps_witness :
    gtVec (fun _ _ => []) (fun _ _ => []) (fun _ _ _ => ⟨⟨0, 1⟩, [⟨0, 1⟩]⟩)
        (fun _ _ => ((0 : Rat), (0 : Rat), (0 : Rat), (0 : Rat)))
        [⟨0, 0, 0, 0⟩] 1 ⟨"a.png", ⟨640, 480⟩, [⟨"cat", 0, (0, 0), (1, 1)⟩]⟩
      = gtVec (fun _ _ => []) (fun _ _ => []) (fun _ _ _ => ⟨⟨0, 1⟩, [⟨0, 1⟩]⟩)
        (fun _ _ => ((0 : Rat), (0 : Rat), (0 : Rat), (0 : Rat)))
        [⟨0, 0, 0, 0⟩] 1 ⟨"b.png", ⟨100, 200⟩, [⟨"cat", 0, (0, 0), (1, 1)⟩]⟩ :=
  fixed_canvas_overlaps.2 (fun _ _ => []) (fun _ _ => [])
    (fun _ _ _ => ⟨⟨0, 1⟩, [⟨0, 1⟩]⟩)
    (fun _ _ => ((0 : Rat), (0 : Rat), (0 : Rat), (0 : Rat)))
    [⟨0, 0, 0, 0⟩] 1 ⟨"a.png", ⟨640, 480⟩, [⟨"cat", 0, (0, 0), (1, 1)⟩]⟩
    ⟨"b.png", ⟨100, 200⟩, [⟨"cat", 0, (0, 0), (1, 1)⟩]⟩ rfl

/-- C9: a sample with an empty box list is not skipped: its target vector is
the all-background initial vector (both passes are vacuous), the np.save
write at the sample's position carries that vector and the usual path, and
the manifest entry at the same position pairs the sample with that path. -/
theorem empty_sample_processed :
    ∀ (b2a : Box → Size → List Rat)
      (a2a : List Anchor → Size → List (List Rat))
      (cov : List Rat → List (List Rat) → Rat → Overlap)
      (cl : Box → Anchor → Rat × Rat × Rat × Rat)
      (dd : String) (anchors : List Anchor) (nc : Nat) (name : String)
      (s : Sample) (pre post : List Sample),
      s.boxes = [] →
      gtVec b2a a2a cov cl anchors nc s = initVec anchors.length nc ∧
      ((compute_gt b2a a2a cov cl dd (pre ++ s :: post) anchors nc
          name).npyWrites)[pre.length]?
        = some (gt_fn dd name s, initVec anchors.length nc) ∧
      ((compute_gt b2a a2a cov cl dd (pre ++ s :: post) anchors nc
          name).manifest)[pre.length]?
        = some (s, gt_fn dd name s) := by
  intro b2a a2a cov cl dd anchors nc name s pre post hb
  have hv : gtVec b2a a2a cov cl anchors nc s = initVec anchors.length nc := by
    unfold gtVec sampleOverlaps
    rw [hb]
    rfl
  refine ⟨hv, ?_, ?_⟩
  · rw [compute_gt_eq, ← hv]
    exact map_getElem?_append_cons _ pre s post
  · rw [compute_gt_eq]
    exact map_getElem?_append_cons _ pre s post

/-- Witness for C9: a box-less sample still gets a background vector saved
and a manifest entry. -/
theorem empty_sample_processed_witness :
    gtVec (fun _ _ => []) (fun _ _ => []) (fun _ _ _ => ⟨⟨0, 0⟩, []⟩)
        (fun _ _ => ((0 : Rat), (0 : Rat), (0 : Rat), (0 : Rat)))
        [⟨0, 0, 0, 0⟩] 1 ⟨"x.png", ⟨5, 5⟩, []⟩ = initVec 1 1 ∧
    ((compute_gt (fun _ _ => []) (fun _ _ => []) (fun _ _ _ => ⟨⟨0, 0⟩, []⟩)
        (fun _ _ => ((0 : Rat), (0 : Rat), (0 : Rat), (0 : Rat)))
        "d" [⟨"x.png", ⟨5, 5⟩, []⟩] [⟨0, 0, 0, 0⟩] 1 "train").npyWrites)[(0 : Nat)]?
      = some (gt_fn "d" "train" ⟨"x.png", ⟨5, 5⟩, []⟩, initVec 1 1) ∧
    ((compute_gt (fun _ _ => []) (fun _ _ => []) (fun _ _ _ => ⟨⟨0, 0⟩, []⟩)
        (fun _ _ => ((0 : Rat), (0 : Rat), (0 : Rat), (0 : Rat)))
        "d" [⟨"x.png", ⟨5, 5⟩, []⟩] [⟨0, 0, 0, 0⟩] 1 "train").manifest)[(0 : Nat)]?
      = some (⟨"x.png", ⟨5, 5⟩, []⟩, gt_fn "d" "train" ⟨"x.png", ⟨5, 5⟩, []⟩) :=
  empty_sample_processed (fun _ _ => []) (fun _ _ => [])
    (fun _ _ _ => ⟨⟨0, 0⟩, []⟩)
    (fun _ _ => ((0 : Rat), (0 : Rat), (0 : Rat), (0 : Rat)))
    "d" [⟨0, 0, 0, 0⟩] 1 "train" ⟨"x.png", ⟨5, 5⟩, []⟩ [] [] rfl

/-- C10: output paths depend only on the basename of the filename: samples
with equal basenames in one split share the output path, the later sample's
vector is the final content of that file, the manifest holds both entries
pointing at the same path, and paths are distinct exactly under distinct
basenames. -/
theorem basename_collision_paths :
    ∀ (b2a : Box → Size → List Rat)
      (a2a : List Anchor → Size → List (List Rat))
      (cov : List Rat → List (List Rat) → Rat → Overlap)
      (cl : Box → Anchor → Rat × Rat × Rat × Rat)
      (dd : String) (anchors : List Anchor) (nc : Nat) (name : String)
      (pre mid post : List Sample) (s1 s2 : Sample),
      basename s1.filename = basename s2.filename →
      (∀ s ∈ post, basename s.filename ≠ basename s2.filename) →
      gt_fn dd name s1 = gt_fn dd name s2 ∧
      lastWrite (compute_gt b2a a2a cov cl dd
          (pre ++ s1 :: (mid ++ s2 :: post)) anchors nc name).npyWrites
          (gt_fn dd name s1)
        = some (gtVec b2a a2a cov cl anchors nc s2) ∧
      (s1, gt_fn dd name s1) ∈ (compute_gt b2a a2a cov cl dd
          (pre ++ s1 :: (mid ++ s2 :: post)) anchors nc name).manifest ∧
      (s2, gt_fn dd name s1) ∈ (compute_gt b2a a2a cov cl dd
          (pre ++ s1 :: (mid ++ s2 :: post)) anchors nc name).manifest ∧
      (∀ (sA sB : Sample), basename sA.filename ≠ basename sB.filename →
        gt_fn dd name sA ≠ gt_fn dd name sB) := by
  intro b2a a2a cov cl dd anchors nc name pre mid post s1 s2 hbn hpost
  have hpath : gt_fn dd name s1 = gt_fn dd name s2 := by
    unfold gt_fn
    rw [hbn]
  refine ⟨hpath, ?_, ?_, ?_, fun sA sB h => gt_fn_inj h⟩
  · rw [compute_gt_eq]
    have hsplit : pre ++ s1 :: (mid ++ s2 :: post)
        = (pre ++ s1 :: mid) ++ s2 :: post := by
      simp
    rw [hsplit, List.map_append, List.map_cons]
    apply lastWrite_spec
    · exact hpath.symm
    · intro q hq
      obtain ⟨s, hs, he⟩ := List.mem_map.mp hq
      rw [← he]
      show gt_fn dd name s ≠ gt_fn dd name s1
      apply gt_fn_inj
      rw [hbn]
      exact hpost s hs
  · rw [compute_gt_eq]
    exact List.mem_map_of_mem _ (by simp)
  · rw [compute_gt_eq, hpath]
    exact List.mem_map_of_mem _ (by simp)

/-- Witness for C10: two box-less samples in directories a and b share the
basename x.png, hence the same output path; the manifest gets both entries
and the saved content is the later sample's vector. -/
theorem basename_collision_paths_witness :
    gt_fn "d" "train" ⟨"a/x.png", ⟨1, 1⟩, []⟩
      = gt_fn "d" "train" ⟨"b/x.png", ⟨2, 2⟩, []⟩ ∧
    lastWrite (compute_gt (fun _ _ => []) (fun _ _ => [])
        (fun _ _ _ => ⟨⟨0, 0⟩, []⟩)
        (fun _ _ => ((0 : Rat), (0 : Rat), (0 : Rat), (0 : Rat)))
        "d" [⟨"a/x.png", ⟨1, 1⟩, []⟩, ⟨"b/x.png", ⟨2, 2⟩, []⟩]
        [⟨0, 0, 0, 0⟩] 1 "train").npyWrites
        (gt_fn "d" "train" ⟨"a/x.png", ⟨1, 1⟩, []⟩)
      = some (gtVec (fun _ _ => []) (fun _ _ => [])
          (fun _ _ _ => ⟨⟨0, 0⟩, []⟩)
          (fun _ _ => ((0 : Rat), (0 : Rat), (0 : Rat), (0 : Rat)))
          [⟨0, 0, 0, 0⟩] 1 ⟨"b/x.png", ⟨2, 2⟩, []⟩) ∧
    (⟨"a/x.png", ⟨1, 1⟩, []⟩, gt_fn "d" "train" ⟨"a/x.png", ⟨1, 1⟩, []⟩)
      ∈ (compute_gt (fun _ _ => []) (fun _ _ => [])
        (fun _ _ _ => ⟨⟨0, 0⟩, []⟩)
        (fun _ _ => ((0 : Rat), (0 : Rat), (0 : Rat), (0 : Rat)))
        "d" [⟨"a/x.png", ⟨1, 1⟩, []⟩, ⟨"b/x.png", ⟨2, 2⟩, []⟩]
        [⟨0, 0, 0, 0⟩] 1 "train").manifest ∧
    (⟨"b/x.png", ⟨2, 2⟩, []⟩, gt_fn "d" "train" ⟨"a/x.png", ⟨1, 1⟩, []⟩)
      ∈ (compute_gt (fun _ _ => []) (fun _ _ => [])
        (fun _ _ _ => ⟨⟨0, 0⟩, []⟩)
        (fun _ _ => ((0 : Rat), (0 : Rat), (0 : Rat), (0 : Rat)))
        "d" [⟨"a/x.png", ⟨1, 1⟩, []⟩, ⟨"b/x.png", ⟨2, 2⟩, []⟩]
        [⟨0, 0, 0, 0⟩] 1 "train").manifest := by
  have h := basename_collision_paths (fun _ _ => []) (fun _ _ => [])
    (fun _ _ _ => ⟨⟨0, 0⟩, []⟩)
    (fun _ _ => ((0 : Rat), (0 : Rat), (0 : Rat), (0 : Rat)))
    "d" [⟨0, 0, 0, 0⟩] 1 "train" [] [] []
    ⟨"a/x.png", ⟨1, 1⟩, []⟩ ⟨"b/x.png", ⟨2, 2⟩, []⟩ (by decide) (by decide)
  exact ⟨h.1, h.2.1, h.2.2.1, h.2.2.2.1⟩

end SSD
